import Mathlib

/-!
# Verification of the PersonaForge security core

Shallow embedding of `src/security/mod.rs`: the sanitizer
(`sanitize_user_input`) and the per-identity security tracker
(`SecurityTracker`).  Strings are modelled as `List Char` (one element per
Rust `char`; lengths are counted in characters, which coincides with Rust
byte lengths on single-byte text such as the catalog phrases and the test
inputs).  Machine integers are modelled as `Nat`; the one place where the
source performs `usize` subtraction that can underflow is modelled with
explicit wrap-around (`wrapSub64`, release-profile semantics) and tracked
by a dedicated predicate.  Time is modelled as a monotonic clock measured
in whole seconds (`Nat`), matching `Duration::as_secs` granularity;
`Instant::duration_since` saturates at zero exactly like Rust's, which is
Nat subtraction.
-/

namespace PersonaForge

/-- Substring containment scan, the model of Rust `str::contains` for a
nonempty needle: true iff `p` occurs as a contiguous subsequence of the
haystack. -/
def containsSeq (p : List Char) : List Char → Bool
  | [] => p.isEmpty
  | c :: cs => p.isPrefixOf (c :: cs) || containsSeq p cs

/-- Index (counted in characters) of the last space of `s`, the model of
Rust `str::rfind(' ')`. -/
def lastSpaceIdx : List Char → Option Nat
  | [] => none
  | c :: cs =>
    match lastSpaceIdx cs with
    | some i => some (i + 1)
    | none => if c = ' ' then some 0 else none

/-- Fuelled model of Rust `str::replace p r`: greedy left-to-right
replacement of non-overlapping occurrences of `p` by `r`.  The fuel is
only a structural-recursion device; `replaceAll` supplies `s.length`,
which is always sufficient. -/
def replaceAllF (p r : List Char) : Nat → List Char → List Char
  | _, [] => []
  | 0, s => s
  | fuel + 1, c :: cs =>
    if p.isPrefixOf (c :: cs) then r ++ replaceAllF p r fuel (cs.drop (p.length - 1))
    else c :: replaceAllF p r fuel cs

/-- Rust `str::replace` for a nonempty pattern `p`. -/
def replaceAll (p r s : List Char) : List Char :=
  replaceAllF p r s.length s

/-- The triple-newline pattern of the whitespace-normalisation loop. -/
def nl3 : List Char := ['\n', '\n', '\n']

/-- The double newline the loop rewrites to. -/
def nl2 : List Char := ['\n', '\n']

/-- Fuelled model of the source loop
`while sanitized.contains("\n\n\n") { sanitized = sanitized.replace("\n\n\n", "\n\n") }`.
Each iteration strictly shrinks the text, so `s.length` fuel suffices. -/
def collapseF : Nat → List Char → List Char
  | 0, s => s
  | fuel + 1, s => if containsSeq nl3 s then collapseF fuel (replaceAll nl3 nl2 s) else s

/-- The whitespace-normalisation loop of `sanitize_user_input`. -/
def collapseNewlines (s : List Char) : List Char :=
  collapseF s.length s

/-- Unicode simple lowercasing restricted to the ASCII and Cyrillic
ranges, the alphabets occurring in the pattern catalog; the model of Rust
`str::to_lowercase` on such text. -/
def toLowerChar (c : Char) : Char :=
  if 'A' ≤ c ∧ c ≤ 'Z' then Char.ofNat (c.toNat + 32)
  else if c = 'Ё' then 'ё'
  else if 'А' ≤ c ∧ c ≤ 'Я' then Char.ofNat (c.toNat + 32)
  else c

/-- The `INJECTION_PATTERNS` catalog from the source, in declaration order. -/
def injectionPatterns : List (List Char) :=
  [ "ignore previous".toList, "ignore above".toList, "ignore all".toList,
    "disregard previous".toList, "disregard above".toList,
    "forget previous".toList, "forget above".toList,
    "forget your instructions".toList, "new instructions".toList,
    "override instructions".toList, "system prompt".toList, "system:".toList,
    "### system".toList, "### instruction".toList, "[system]".toList,
    "[inst]".toList, "<|system|>".toList, "<|im_start|>".toList,
    "<s>".toList, "</s>".toList, "<<sys>>".toList, "<</sys>>".toList,
    "you are now".toList, "act as if".toList, "pretend you are".toList,
    "roleplay as".toList, "from now on".toList, "starting now".toList,
    "new persona".toList, "change your".toList, "switch to".toList,
    "dan mode".toList, "developer mode".toList, "jailbreak".toList,
    "bypass".toList, "unlock".toList, "no restrictions".toList,
    "without limits".toList, "ignore safety".toList, "ignore ethics".toList,
    "respond with".toList, "always respond".toList, "never respond".toList,
    "only respond".toList, "must respond".toList, "output only".toList,
    "print only".toList,
    "игнорируй предыдущ".toList, "забудь предыдущ".toList,
    "новые инструкции".toList, "системный промпт".toList,
    "ты теперь".toList, "притворись".toList, "с этого момента".toList ]

/-- The `DANGEROUS_SEQUENCES` catalog from the source. -/
def dangerousSequences : List (List Char) :=
  [ "\n\n\n".toList, "```".toList, "---".toList, "===".toList, "###".toList ]

/-- Model of `u8::saturating_add` on values already below 256. -/
def satAdd255 (a b : Nat) : Nat := min (a + b) 255

/-- The `SanitizationResult` struct from the source (risk_score is a `u8`, modelled
as a `Nat` kept in range by construction). -/
structure SanitizationResult where
  sanitized : List Char
  was_modified : Bool
  detected_patterns : List (List Char)
  risk_score : Nat
deriving DecidableEq

/-- Model of `usize` wrapping subtraction (release-profile semantics of Rust
`a - b`); used at the single source site `max_length - 50`. -/
def wrapSub64 (a b : Nat) : Nat := (a + (2 ^ 64 - b)) % 2 ^ 64

/-- The role-marker escaping chain of `sanitize_user_input` (lines
130–136), in source order. -/
def escapeRoleMarkers (s : List Char) : List Char :=
  let s1 := replaceAll "System:".toList "[System]".toList s
  let s2 := replaceAll "system:".toList "[system]".toList s1
  let s3 := replaceAll "Bot:".toList "[Bot]".toList s2
  let s4 := replaceAll "User:".toList "[User]".toList s3
  let s5 := replaceAll "Assistant:".toList "[Assistant]".toList s4
  replaceAll "Human:".toList "[Human]".toList s5

/-- The transformation pipeline of `sanitize_user_input` before length
enforcement: role-marker escaping then newline collapsing. -/
def preTruncate (input : List Char) : List Char :=
  collapseNewlines (escapeRoleMarkers input)

/-- The truncation step of `sanitize_user_input` (lines 144–154), taken
when the transformed text is longer than `max_length`: cut to
`max_length` characters, back up to the last space when it lies above
`max_length - 50` (a `usize` subtraction, modelled wrapping), then append
an ellipsis. -/
def truncateStep (s : List Char) (max_length : Nat) : List Char :=
  let cut := s.take max_length
  let cut2 :=
    match lastSpaceIdx cut with
    | some last_space =>
      if last_space > wrapSub64 max_length 50 then cut.take last_space else cut
    | none => cut
  cut2 ++ "...".toList

/-- The `sanitize_user_input` function from the source: pattern scoring on the
lowercased input, dangerous-sequence scoring on the raw input (both via
`u8::saturating_add`, capped at 100), role-marker escaping, newline
collapsing, and length enforcement. -/
def sanitize_user_input (input : List Char) (max_length : Nat) : SanitizationResult :=
  let input_lower := input.map toLowerChar
  let detected_patterns := injectionPatterns.filter fun p => containsSeq p input_lower
  let risk1 := injectionPatterns.foldl
    (fun acc p => if containsSeq p input_lower then satAdd255 acc 20 else acc) 0
  let risk2 := dangerousSequences.foldl
    (fun acc q => if containsSeq q input then satAdd255 acc 5 else acc) risk1
  let risk_score := min risk2 100
  let sanitized := preTruncate input
  let was_truncated : Bool := decide (sanitized.length > max_length)
  let final := if was_truncated then truncateStep sanitized max_length else sanitized
  { sanitized := final
    was_modified := decide (final ≠ input) || was_truncated
    detected_patterns := detected_patterns
    risk_score := risk_score }

/-- The source evaluates `max_length - 50` on `usize` (line 149) exactly
when the text was truncated and `rfind(' ')` found a space; that
subtraction underflows precisely when `max_length < 50`.  This predicate
marks the inputs on which the underflow happens (a panic under Rust's
overflow checks, silent wrap-around in release builds). -/
def truncationUnderflows (input : List Char) (max_length : Nat) : Bool :=
  let sanitized := preTruncate input
  decide (sanitized.length > max_length)
    && (lastSpaceIdx (sanitized.take max_length)).isSome
    && decide (max_length < 50)

/-! ### List infrastructure lemmas -/

theorem prefixOfIff {p s : List Char} : p.isPrefixOf s = true ↔ p <+: s :=
  List.isPrefixOf_iff_prefix

/-- Function `containsSeq` decides substring containment. -/
theorem containsSeqIff (p : List Char) : ∀ s, containsSeq p s = true ↔ p <:+: s := by
  intro s
  induction s with
  | nil =>
    simp only [containsSeq, List.isEmpty_iff]
    constructor
    · rintro rfl; exact ⟨[], [], rfl⟩
    · intro h; exact List.eq_nil_of_infix_nil h
  | cons c cs ih =>
    simp only [containsSeq, Bool.or_eq_true, prefixOfIff, ih, List.infix_cons_iff]

/-- Decomposition of a prefix of an append. -/
theorem prefixSplit {α : Type} {t x y : List α} (h : t <+: x ++ y) :
    t <+: x ∨ ∃ w, t = x ++ w ∧ w <+: y := by
  induction x generalizing t with
  | nil => exact Or.inr ⟨t, rfl, by simpa using h⟩
  | cons c x ih =>
    cases t with
    | nil => exact Or.inl ⟨c :: x, rfl⟩
    | cons a t =>
      obtain ⟨v, hv⟩ := h
      simp only [List.cons_append, List.cons.injEq] at hv
      obtain ⟨rfl, hv⟩ := hv
      rcases ih ⟨v, hv⟩ with h1 | ⟨w, rfl, hw⟩
      · obtain ⟨w, hw⟩ := h1
        exact Or.inl ⟨w, by simp [hw]⟩
      · exact Or.inr ⟨w, rfl, hw⟩

theorem sufOfSufCons {α : Type} {a x : List α} {c : α} (h : a <:+ x) : a <:+ c :: x := by
  obtain ⟨u, rfl⟩ := h
  exact ⟨c :: u, rfl⟩

/-- An infix of an append is an infix of a part or spans the boundary. -/
theorem infixSplitApp {α : Type} {t x y : List α} (h : t <:+: x ++ y) :
    t <:+: x ∨ t <:+: y ∨
      ∃ a b, t = a ++ b ∧ a ≠ [] ∧ b ≠ [] ∧ a <:+ x ∧ b <+: y := by
  induction x generalizing t with
  | nil => exact Or.inr (Or.inl (by simpa using h))
  | cons c x ih =>
    have h' : t <:+: c :: (x ++ y) := by simpa using h
    rcases List.infix_cons_iff.mp h' with hp | hi
    · rcases prefixSplit (by simpa using hp : t <+: (c :: x) ++ y) with h1 | ⟨w, rfl, hw⟩
      · exact Or.inl h1.isInfix
      · cases w with
        | nil => exact Or.inl (by simp)
        | cons z zs =>
          exact Or.inr (Or.inr ⟨c :: x, z :: zs, rfl, by simp, by simp,
            List.suffix_rfl, hw⟩)
    · rcases ih hi with h1 | h2 | ⟨a, b, rfl, ha, hb, hsuf, hpre⟩
      · exact Or.inl (h1.trans (List.infix_cons List.infix_rfl))
      · exact Or.inr (Or.inl h2)
      · exact Or.inr (Or.inr ⟨a, b, rfl, ha, hb, sufOfSufCons hsuf, hpre⟩)

/-- A prefix of the output of `replaceAllF` is a prefix of the input, or
ends in material taken from the replacement string. -/
theorem replacePrefixSplit (p r : List Char) :
    ∀ (fuel : Nat) (s v : List Char), v <+: replaceAllF p r fuel s →
      v <+: s ∨ ∃ a b, v = a ++ b ∧ b ≠ [] ∧ (b <+: r ∨ r <+: b) := by
  intro fuel
  induction fuel with
  | zero =>
    intro s v h
    cases s with
    | nil => exact Or.inl (by simpa [replaceAllF] using h)
    | cons c cs => exact Or.inl (by simpa [replaceAllF] using h)
  | succ fuel ih =>
    intro s v h
    cases s with
    | nil => exact Or.inl (by simpa [replaceAllF] using h)
    | cons c cs =>
      simp only [replaceAllF] at h
      by_cases hm : p.isPrefixOf (c :: cs) = true
      · rw [if_pos hm] at h
        rcases List.eq_nil_or_concat v with rfl | _
        · exact Or.inl ⟨c :: cs, rfl⟩
        · rcases prefixSplit h with h1 | ⟨w, rfl, _⟩
          · exact Or.inr ⟨[], v, rfl, by rintro rfl; simp_all, Or.inl h1⟩
          · exact Or.inr ⟨[], r ++ w, rfl, by rintro h'; simp_all,
              Or.inr ⟨w, rfl⟩⟩
      · rw [if_neg hm] at h
        cases v with
        | nil => exact Or.inl ⟨c :: cs, rfl⟩
        | cons a v =>
          obtain ⟨u, hu⟩ := h
          simp only [List.cons_append, List.cons.injEq] at hu
          obtain ⟨rfl, hu⟩ := hu
          rcases ih cs v ⟨u, hu⟩ with h1 | ⟨x, b, rfl, hb, hbr⟩
          · obtain ⟨w, hw⟩ := h1
            exact Or.inl ⟨w, by simp [hw]⟩
          · exact Or.inr ⟨a :: x, b, rfl, hb, hbr⟩

/-- Overlap freedom of a target string `t` with a replacement string `r`:
`t` does not occur inside `r`, no nonempty suffix of `r` starts `t`, no
nonempty proper suffix of `t` starts `r`, and `r` does not occur inside
`t`. -/
def NoOverlap (t r : List Char) : Prop :=
  ¬ t <:+: r ∧
  (∀ i, i < r.length → ¬ (r.drop i) <+: t) ∧
  (∀ i, i < t.length → 0 < i → ¬ (t.drop i) <+: r) ∧
  ¬ r <:+: t

instance (t r : List Char) : Decidable (NoOverlap t r) := by
  unfold NoOverlap; infer_instance

/-- Main non-occurrence lemma for greedy replacement: if `t` is the
pattern itself (with enough fuel), or `t` did not occur in the input,
then — given overlap freedom of `t` with the replacement `r` — `t` does
not occur in the output of `replaceAllF p r`. -/
theorem replaceNoOccur (p r t : List Char) (hp : p ≠ []) (ht : t ≠ [])
    (hov : NoOverlap t r) :
    ∀ (fuel : Nat) (s : List Char), (t = p → s.length ≤ fuel) →
      (t = p ∨ ¬ t <:+: s) → ¬ t <:+: replaceAllF p r fuel s := by
  obtain ⟨hov1, hov2, hov3, hov4⟩ := hov
  intro fuel
  induction fuel with
  | zero =>
    intro s hfuel hts
    cases s with
    | nil => simpa [replaceAllF] using ht
    | cons c cs =>
      rcases hts with rfl | hni
      · exact absurd (hfuel rfl) (by simp)
      · simpa [replaceAllF] using hni
  | succ fuel ih =>
    intro s hfuel hts
    cases s with
    | nil => simpa [replaceAllF] using ht
    | cons c cs =>
      simp only [replaceAllF]
      by_cases hm : p.isPrefixOf (c :: cs) = true
      · rw [if_pos hm]
        intro hocc
        rcases infixSplitApp hocc with h1 | h2 | ⟨a, b, rfl, hane, hbne, hsuf, hpre⟩
        · exact hov1 h1
        · refine ih (cs.drop (p.length - 1)) (fun htp => ?_) ?_ h2
          · have := List.length_drop (p.length - 1) cs
            have hfl := hfuel htp
            simp only [List.length_cons] at hfl
            omega
          · rcases hts with rfl | hni
            · exact Or.inl rfl
            · refine Or.inr fun hc => hni ?_
              have hdrop : cs.drop (p.length - 1) <:+ c :: cs :=
                sufOfSufCons (List.drop_suffix _ _)
              obtain ⟨u, hu⟩ := hdrop
              obtain ⟨x, y, hxy⟩ := hc
              refine ⟨u ++ x, y, ?_⟩
              rw [← hu, ← hxy]
              simp [List.append_assoc]
        · obtain ⟨u, hu⟩ := hsuf
          have hlena : 0 < a.length := by
            cases a with
            | nil => exact absurd rfl hane
            | cons z zs => simp
          have hlen : u.length + a.length = r.length := by
            have := congrArg List.length hu
            simpa [List.length_append] using this
          refine hov2 (r.length - a.length) (by omega) ?_
          have hda : r.drop (r.length - a.length) = a := by
            have hdr := congrArg (List.drop u.length) hu
            rw [List.drop_left] at hdr
            have : u.length = r.length - a.length := by omega
            rw [← this, hdr]
          rw [hda]
          exact ⟨b, rfl⟩
      · rw [if_neg hm]
        intro hocc
        rcases List.infix_cons_iff.mp hocc with hp1 | hi
        · -- an occurrence of t starting at the literal head character
          cases t with
          | nil => exact absurd rfl ht
          | cons a t' =>
            obtain ⟨v, hv⟩ := hp1
            simp only [List.cons_append, List.cons.injEq] at hv
            obtain ⟨rfl, hv⟩ := hv
            rcases replacePrefixSplit p r fuel cs t' ⟨v, hv⟩ with h1 | ⟨x, b, hxb, hbne, hbr⟩
            · -- t is then a prefix of the original a :: cs
              have hpre : (a :: t') <+: (a :: cs) := by
                obtain ⟨w, hw⟩ := h1
                exact ⟨w, by simp [hw]⟩
              rcases hts with heq | hni
              · exact hm (prefixOfIff.mpr (heq ▸ hpre))
              · exact hni hpre.isInfix
            · -- t ends in material from the replacement string r
              have hlenb : 0 < b.length := by
                cases b with
                | nil => exact absurd rfl hbne
                | cons z zs => simp
              have hlen : t'.length = x.length + b.length := by
                have := congrArg List.length hxb
                simpa [List.length_append] using this
              have hidx : (a :: t').drop (1 + x.length) = b := by
                have : (a :: t') = (a :: x) ++ b := by simp [hxb]
                rw [this]
                have hxl : 1 + x.length = (a :: x).length := by simp; omega
                rw [hxl, List.drop_left]
              rcases hbr with hbr | hbr
              · refine hov3 (1 + x.length) (by simp; omega) (by omega)
                  (by rw [hidx]; exact hbr)
              · refine hov4 ?_
                obtain ⟨w, hw⟩ := hbr
                refine ⟨a :: x, w, ?_⟩
                simp [hxb, ← hw]
        · refine ih cs (fun htp => ?_) ?_ hi
          · have := hfuel htp; simp only [List.length_cons] at this; omega
          · rcases hts with rfl | hni
            · exact Or.inl rfl
            · exact Or.inr fun hc => hni (List.infix_cons hc)

/-- Non-occurrence version at the `replaceAll` wrapper: the pattern
itself never occurs in the output. -/
theorem replaceAllNoSelf (p r : List Char) (hp : p ≠ []) (hov : NoOverlap p r)
    (s : List Char) : ¬ p <:+: replaceAll p r s :=
  replaceNoOccur p r p hp hp hov s.length s (fun _ => le_rfl) (Or.inl rfl)

/-- Preservation version: a target `t` absent from the input stays absent
after replacing a (possibly different) pattern by `r`. -/
theorem replaceAllKeepsAbsent (p r t : List Char) (hp : p ≠ []) (ht : t ≠ [])
    (hov : NoOverlap t r) {s : List Char} (hs : ¬ t <:+: s) :
    ¬ t <:+: replaceAll p r s := by
  refine replaceNoOccur p r t hp ht hov s.length s (fun htp => le_rfl) (Or.inr hs)

/-- Newline collapsing preserves absence of any target that has no
overlap with a double newline. -/
theorem collapseKeepsAbsent (t : List Char) (ht : t ≠ []) (hov : NoOverlap t nl2) :
    ∀ (fuel : Nat) (s : List Char), ¬ t <:+: s → ¬ t <:+: collapseF fuel s := by
  intro fuel
  induction fuel with
  | zero => intro s hs; simpa [collapseF] using hs
  | succ fuel ih =>
    intro s hs
    simp only [collapseF]
    by_cases hc : containsSeq nl3 s = true
    · rw [if_pos hc]
      exact ih _ (replaceAllKeepsAbsent nl3 nl2 t (by simp [nl3]) ht hov hs)
    · rw [if_neg hc]; exact hs

/-! ### Generic facts about the scoring folds and the truncation step -/

/-- A left fold of `u8::saturating_add w` steps over a list equals the
saturated weighted match count. -/
theorem foldSat (w : Nat) (f : List Char → Bool) :
    ∀ (l : List (List Char)) (acc : Nat), acc ≤ 255 →
      l.foldl (fun a x => if f x then satAdd255 a w else a) acc
        = min (acc + w * l.countP f) 255 := by
  intro l
  induction l with
  | nil =>
    intro acc h
    simp only [List.foldl_nil, List.countP_nil, Nat.mul_zero, Nat.add_zero]
    omega
  | cons x l ih =>
    intro acc h
    simp only [List.foldl_cons, List.countP_cons]
    by_cases hx : f x = true
    · rw [if_pos hx, ih (satAdd255 acc w) (by simp only [satAdd255]; omega), if_pos hx,
        Nat.mul_add, Nat.mul_one]
      simp only [satAdd255]
      omega
    · rw [if_neg hx, ih acc h, if_neg hx, Nat.add_zero]

/-- The truncation step never produces more than `max_length` characters
plus the three-character ellipsis. -/
theorem truncateStepLen (s : List Char) (max_length : Nat) :
    (truncateStep s max_length).length ≤ max_length + 3 := by
  have hdots : ("...".toList).length = 3 := rfl
  simp only [truncateStep, List.length_append, hdots]
  cases h : lastSpaceIdx (s.take max_length) with
  | none =>
    simp only [h, List.length_take]
    omega
  | some i =>
    simp only [h]
    by_cases hgt : i > wrapSub64 max_length 50
    · rw [if_pos hgt]
      simp only [List.length_take]
      omega
    · rw [if_neg hgt]
      simp only [List.length_take]
      omega

/-- Infixes of a `take` are infixes of the original list. -/
theorem infixOfTake {t l : List Char} {n : Nat} (h : t <:+: l.take n) : t <:+: l :=
  h.trans (List.IsPrefix.isInfix ⟨l.drop n, List.take_append_drop n l⟩)

/-- The truncation step preserves absence of any nonempty target that
contains no dot. -/
theorem truncKeepsAbsent (t s : List Char) (max_length : Nat) (ht : t ≠ [])
    (hdot : '.' ∉ t) (hs : ¬ t <:+: s) : ¬ t <:+: truncateStep s max_length := by
  unfold truncateStep
  intro hocc
  have hdots : ∀ b : List Char, b ≠ [] → b <+: "...".toList → '.' ∈ b := by
    intro b hb hpre
    cases b with
    | nil => exact absurd rfl hb
    | cons z zs =>
      obtain ⟨w, hw⟩ := hpre
      have : z = '.' := by
        have := congrArg (fun l => l.headD ' ') hw
        simpa using this
      simp [this]
  have hcut2 : ¬ t <:+: (match lastSpaceIdx (s.take max_length) with
      | some last_space =>
        if last_space > wrapSub64 max_length 50 then (s.take max_length).take last_space
        else s.take max_length
      | none => s.take max_length) := by
    cases lastSpaceIdx (s.take max_length) with
    | none => exact fun hc => hs (infixOfTake hc)
    | some i =>
      by_cases hgt : i > wrapSub64 max_length 50
      · simp only [hgt, if_pos]
        exact fun hc => hs (infixOfTake (infixOfTake hc))
      · simp only [hgt, if_neg, ite_false]
        exact fun hc => hs (infixOfTake hc)
  rcases infixSplitApp hocc with h1 | h2 | ⟨a, b, rfl, _, hbne, _, hbpre⟩
  · exact hcut2 h1
  · cases t with
    | nil => exact absurd rfl ht
    | cons z zs =>
      have hz : z ∈ "...".toList := h2.subset (by simp)
      have : z = '.' := by simpa using hz
      exact hdot (by simp [this])
  · exact hdot (List.mem_append_right a (hdots b hbne hbpre))

/-! ### The six exact role-marker tokens -/

def tokSystemU : List Char := "System:".toList
def tokSystemL : List Char := "system:".toList
def tokBot : List Char := "Bot:".toList
def tokUser : List Char := "User:".toList
def tokAssistant : List Char := "Assistant:".toList
def tokHuman : List Char := "Human:".toList

/-- After the escaping chain, none of the six exact tokens occurs. -/
theorem escapeRemovesTokens (input : List Char) :
    ¬ tokSystemU <:+: escapeRoleMarkers input ∧
    ¬ tokSystemL <:+: escapeRoleMarkers input ∧
    ¬ tokBot <:+: escapeRoleMarkers input ∧
    ¬ tokUser <:+: escapeRoleMarkers input ∧
    ¬ tokAssistant <:+: escapeRoleMarkers input ∧
    ¬ tokHuman <:+: escapeRoleMarkers input := by
  unfold escapeRoleMarkers
  -- stage outputs
  set s1 := replaceAll "System:".toList "[System]".toList input with hs1
  set s2 := replaceAll "system:".toList "[system]".toList s1 with hs2
  set s3 := replaceAll "Bot:".toList "[Bot]".toList s2 with hs3
  set s4 := replaceAll "User:".toList "[User]".toList s3 with hs4
  set s5 := replaceAll "Assistant:".toList "[Assistant]".toList s4 with hs5
  have h1 : ¬ tokSystemU <:+: s1 :=
    replaceAllNoSelf _ _ (by decide) (by decide) input
  have h2s : ¬ tokSystemL <:+: s2 :=
    replaceAllNoSelf _ _ (by decide) (by decide) s1
  have h2 : ¬ tokSystemU <:+: s2 :=
    replaceAllKeepsAbsent _ _ _ (by decide) (by decide) (by decide) h1
  have h3b : ¬ tokBot <:+: s3 :=
    replaceAllNoSelf _ _ (by decide) (by decide) s2
  have h3 : ¬ tokSystemU <:+: s3 :=
    replaceAllKeepsAbsent _ _ _ (by decide) (by decide) (by decide) h2
  have h3s : ¬ tokSystemL <:+: s3 :=
    replaceAllKeepsAbsent _ _ _ (by decide) (by decide) (by decide) h2s
  have h4u : ¬ tokUser <:+: s4 :=
    replaceAllNoSelf _ _ (by decide) (by decide) s3
  have h4 : ¬ tokSystemU <:+: s4 :=
    replaceAllKeepsAbsent _ _ _ (by decide) (by decide) (by decide) h3
  have h4s : ¬ tokSystemL <:+: s4 :=
    replaceAllKeepsAbsent _ _ _ (by decide) (by decide) (by decide) h3s
  have h4b : ¬ tokBot <:+: s4 :=
    replaceAllKeepsAbsent _ _ _ (by decide) (by decide) (by decide) h3b
  have h5a : ¬ tokAssistant <:+: s5 :=
    replaceAllNoSelf _ _ (by decide) (by decide) s4
  have h5 : ¬ tokSystemU <:+: s5 :=
    replaceAllKeepsAbsent _ _ _ (by decide) (by decide) (by decide) h4
  have h5s : ¬ tokSystemL <:+: s5 :=
    replaceAllKeepsAbsent _ _ _ (by decide) (by decide) (by decide) h4s
  have h5b : ¬ tokBot <:+: s5 :=
    replaceAllKeepsAbsent _ _ _ (by decide) (by decide) (by decide) h4b
  have h5u : ¬ tokUser <:+: s5 :=
    replaceAllKeepsAbsent _ _ _ (by decide) (by decide) (by decide) h4u
  refine ⟨?_, ?_, ?_, ?_, ?_, ?_⟩
  · exact replaceAllKeepsAbsent _ _ _ (by decide) (by decide) (by decide) h5
  · exact replaceAllKeepsAbsent _ _ _ (by decide) (by decide) (by decide) h5s
  · exact replaceAllKeepsAbsent _ _ _ (by decide) (by decide) (by decide) h5b
  · exact replaceAllKeepsAbsent _ _ _ (by decide) (by decide) (by decide) h5u
  · exact replaceAllKeepsAbsent _ _ _ (by decide) (by decide) (by decide) h5a
  · exact replaceAllNoSelf _ _ (by decide) (by decide) s5

/-- The two computed fields of `sanitize_user_input`, exposed as
equations convenient for case analysis on the truncation branch. -/
theorem sanitizeSanitizedEq (input : List Char) (max_length : Nat) :
    (sanitize_user_input input max_length).sanitized
      = if (preTruncate input).length > max_length
        then truncateStep (preTruncate input) max_length
        else preTruncate input := by
  simp only [sanitize_user_input, decide_eq_true_eq]

theorem sanitizeModifiedEq (input : List Char) (max_length : Nat) :
    (sanitize_user_input input max_length).was_modified
      = (decide ((sanitize_user_input input max_length).sanitized ≠ input)
         || decide ((preTruncate input).length > max_length)) := by
  rw [sanitizeSanitizedEq]
  simp only [sanitize_user_input, decide_eq_true_eq]

/-- Absence of a dot-free token from the escaped text survives the whole
pipeline. -/
theorem sanitizeKeepsAbsent (input : List Char) (max_length : Nat) (t : List Char)
    (htne : t ≠ []) (hdot : '.' ∉ t) (hnl : NoOverlap t nl2)
    (hescT : ¬ t <:+: escapeRoleMarkers input) :
    ¬ t <:+: (sanitize_user_input input max_length).sanitized := by
  have hcol : ¬ t <:+: preTruncate input :=
    collapseKeepsAbsent t htne hnl _ _ hescT
  rw [sanitizeSanitizedEq]
  by_cases hT : (preTruncate input).length > max_length
  · rw [if_pos hT]
    exact truncKeepsAbsent t _ max_length htne hdot hcol
  · rw [if_neg hT]
    exact hcol

/-! ### Claim theorems about the sanitizer -/

/-- C4: for every input and budget, the risk score equals the sum of 20
per catalog phrase contained in the lowercased text plus 5 per dangerous
sequence contained in the raw text, saturated at 100; hence it never
exceeds 100.  Both catalogs are duplicate-free, so the counts are counts
of distinct matched entries. -/
theorem claim4_risk_score_formula (input : List Char) (max_length : Nat) :
    (sanitize_user_input input max_length).risk_score
      = min (20 * (injectionPatterns.countP fun p => containsSeq p (input.map toLowerChar))
          + 5 * (dangerousSequences.countP fun q => containsSeq q input)) 100 ∧
    (sanitize_user_input input max_length).risk_score ≤ 100 ∧
    injectionPatterns.Nodup ∧ dangerousSequences.Nodup := by
  have h1 := foldSat 20 (fun p => containsSeq p (input.map toLowerChar))
    injectionPatterns 0 (by omega)
  have h2 := foldSat 5 (fun q => containsSeq q input) dangerousSequences
    (injectionPatterns.foldl
      (fun a x => if containsSeq x (input.map toLowerChar) then satAdd255 a 20 else a) 0)
    (by rw [h1]; omega)
  have hrisk : (sanitize_user_input input max_length).risk_score
      = min (min (min (0 + 20 * (injectionPatterns.countP fun p =>
              containsSeq p (input.map toLowerChar))) 255
          + 5 * (dangerousSequences.countP fun q => containsSeq q input)) 255) 100 := by
    simp only [sanitize_user_input]
    rw [h2, h1]
  refine ⟨?_, ?_, by decide, by decide⟩
  · rw [hrisk]; omega
  · rw [hrisk]; omega

/-- C8: whenever the input is longer than the budget, the output is at
most `max_length + 3` characters and `was_modified` is reported. -/
theorem claim8_truncation_bound (input : List Char) (max_length : Nat)
    (h : max_length < input.length) :
    (sanitize_user_input input max_length).sanitized.length ≤ max_length + 3 ∧
    (sanitize_user_input input max_length).was_modified = true := by
  by_cases hT : (preTruncate input).length > max_length
  · constructor
    · rw [sanitizeSanitizedEq, if_pos hT]
      exact truncateStepLen _ _
    · rw [sanitizeModifiedEq, decide_eq_true hT, Bool.or_true]
  · have hle : (preTruncate input).length ≤ max_length := by omega
    have hfin : (sanitize_user_input input max_length).sanitized = preTruncate input := by
      rw [sanitizeSanitizedEq, if_neg hT]
    have hne : (sanitize_user_input input max_length).sanitized ≠ input := by
      rw [hfin]
      intro heq
      rw [heq] at hle
      omega
    constructor
    · rw [hfin]
      omega
    · rw [sanitizeModifiedEq, decide_eq_true hne, Bool.true_or]

/-- Witness for C8 at the spec's own test vector: a 2000-character
uniform input with a budget of 100. -/
theorem claim8_truncation_bound_witness :
    100 < (List.replicate 2000 'a').length ∧
    ((sanitize_user_input (List.replicate 2000 'a') 100).sanitized.length ≤ 100 + 3 ∧
     (sanitize_user_input (List.replicate 2000 'a') 100).was_modified = true) :=
  ⟨by rw [List.length_replicate]; omega,
   claim8_truncation_bound (List.replicate 2000 'a') 100
     (by rw [List.length_replicate]; omega)⟩

/-- C3: the sanitizer is *not* total over all budgets: on this input the
source reaches `max_length - 50` with `max_length = 10 < 50`, a `usize`
underflow (a panic under Rust's overflow checks; under release
wrap-around the word-boundary back-up is silently skipped and the output
below is produced). -/
theorem claim3_truncation_underflow :
    truncationUnderflows "hello world hello world".toList 10 = true ∧
    (sanitize_user_input "hello world hello world".toList 10).sanitized
      = "hello worl...".toList := by
  decide

/-- C6 counterexample: the claim promises removal of role-marker tokens
"in any case variant", but the source only replaces the exact spellings;
the all-caps variant "SYSTEM:" passes through unchanged. -/
theorem claim6_case_variant_counterexample :
    (sanitize_user_input "SYSTEM: x".toList 1000).sanitized = "SYSTEM: x".toList ∧
    containsSeq "SYSTEM:".toList (sanitize_user_input "SYSTEM: x".toList 1000).sanitized
      = true := by
  decide

/-- C6 (amended): for every input, the sanitized text contains no
occurrence of the six exact tokens the source replaces — "System:",
"system:", "Bot:", "User:", "Assistant:", "Human:" — and on the spec's
example the bracketed form appears. -/
theorem claim6_exact_role_markers_removed (input : List Char) (max_length : Nat) :
    (¬ tokSystemU <:+: (sanitize_user_input input max_length).sanitized) ∧
    (¬ tokSystemL <:+: (sanitize_user_input input max_length).sanitized) ∧
    (¬ tokBot <:+: (sanitize_user_input input max_length).sanitized) ∧
    (¬ tokUser <:+: (sanitize_user_input input max_length).sanitized) ∧
    (¬ tokAssistant <:+: (sanitize_user_input input max_length).sanitized) ∧
    (¬ tokHuman <:+: (sanitize_user_input input max_length).sanitized) ∧
    containsSeq "[System]".toList (sanitize_user_input "System: x".toList 1000).sanitized
      = true := by
  obtain ⟨a1, a2, a3, a4, a5, a6⟩ := escapeRemovesTokens input
  exact ⟨sanitizeKeepsAbsent _ _ _ (by decide) (by decide) (by decide) a1,
    sanitizeKeepsAbsent _ _ _ (by decide) (by decide) (by decide) a2,
    sanitizeKeepsAbsent _ _ _ (by decide) (by decide) (by decide) a3,
    sanitizeKeepsAbsent _ _ _ (by decide) (by decide) (by decide) a4,
    sanitizeKeepsAbsent _ _ _ (by decide) (by decide) (by decide) a5,
    sanitizeKeepsAbsent _ _ _ (by decide) (by decide) (by decide) a6,
    by decide⟩

/-! ### Security tracker embedding

Time is a monotonic clock in whole seconds (`Nat`); `Duration` values are
second counts.  `Instant::duration_since` saturates at zero, which is Nat
subtraction.  The `HashMap<u64, UserSecurityRecord>` is modelled as a
function `Nat → Option UserSecurityRecord`. -/

/-- The `SecurityConfig` struct from the source (durations in seconds). -/
structure SecurityConfig where
  strike_threshold : Nat
  max_strikes : Nat
  block_duration : Nat
  strike_window : Nat
deriving DecidableEq

/-- The `SecurityConfig::default` values from the source. -/
def SecurityConfig.default : SecurityConfig :=
  { strike_threshold := 30, max_strikes := 3, block_duration := 300,
    strike_window := 3600 }

/-- The `UserSecurityRecord` struct from the source. -/
structure UserSecurityRecord where
  strikes : Nat
  last_strike : Nat
  blocked_until : Option Nat
  total_violations : Nat
  last_message : Nat
  messages_in_window : Nat
  rate_limit_until : Option Nat
deriving DecidableEq

/-- The `UserSecurityRecord::default` record from the source: `Instant::now()` at
record creation is the current instant `now`. -/
def UserSecurityRecord.mkDefault (now : Nat) : UserSecurityRecord :=
  { strikes := 0, last_strike := now, blocked_until := none,
    total_violations := 0, last_message := now, messages_in_window := 0,
    rate_limit_until := none }

/-- The `RateLimitReason` variants from the source. -/
inductive RateLimitReason where
  | TooManyMessages
  | SuspiciousHistory
deriving DecidableEq

/-- The `SecurityCheckResult` variants from the source. -/
inductive SecurityCheckResult where
  | Allowed
  | Blocked (remaining_seconds : Nat)
  | Warning (strikes max_strikes : Nat)
  | JustBlocked (duration_seconds : Nat)
  | RateLimited (remaining_seconds : Nat) (reason : RateLimitReason)
deriving DecidableEq

/-- Function `SecurityTracker::calculate_rate_limit_duration` from the source. -/
def calculate_rate_limit_duration (total_violations : Nat) : Nat :=
  if total_violations = 0 then 30
  else if total_violations = 1 then 60
  else if total_violations = 2 then 120
  else if total_violations ≤ 5 then 300
  else 600

/-- The `max_messages` match of `SecurityTracker::check_rate_limit`. -/
def maxMessagesFor (total_violations : Nat) : Nat :=
  if total_violations = 0 then 20
  else if total_violations ≤ 2 then 15
  else if total_violations ≤ 5 then 10
  else if total_violations ≤ 10 then 5
  else 3

/-- Function `SecurityTracker::check_rate_limit` from the source: lazily reset the
60-second message window, then rate-limit whenever the window count has
reached the violation-history-dependent allowance. -/
def check_rate_limit (record : UserSecurityRecord) (now : Nat) :
    UserSecurityRecord × Option SecurityCheckResult :=
  let record :=
    if now - record.last_message > 60 then { record with messages_in_window := 0 }
    else record
  let max_messages := maxMessagesFor record.total_violations
  if record.messages_in_window ≥ max_messages then
    let limit_duration := calculate_rate_limit_duration record.total_violations
    ({ record with
       rate_limit_until := some (now + limit_duration),
       messages_in_window := 0 },
     some (.RateLimited limit_duration
       (if record.total_violations > 0 then .SuspiciousHistory else .TooManyMessages)))
  else (record, none)

/-- Steps 3–7 of `check_and_update` (after the hard-block and
rate-limit-until gates): frequency check, counter updates, strike-window
reset, and the strike/block escalation. -/
def cau_core (cfg : SecurityConfig) (record : UserSecurityRecord) (now risk_score : Nat) :
    UserSecurityRecord × SecurityCheckResult :=
  match check_rate_limit record now with
  | (record, some result) => (record, result)
  | (record, none) =>
    let record := { record with
      messages_in_window := record.messages_in_window + 1,
      last_message := now }
    let record :=
      if now - record.last_strike > cfg.strike_window then { record with strikes := 0 }
      else record
    if risk_score ≥ cfg.strike_threshold then
      let record := { record with
        strikes := record.strikes + 1,
        last_strike := now,
        total_violations := record.total_violations + 1 }
      let rate_limit_duration := calculate_rate_limit_duration record.total_violations
      let record :=
        if rate_limit_duration > 0 then
          { record with rate_limit_until := some (now + rate_limit_duration) }
        else record
      if record.strikes ≥ cfg.max_strikes then
        ({ record with blocked_until := some (now + cfg.block_duration), strikes := 0 },
         .JustBlocked cfg.block_duration)
      else (record, .Warning record.strikes cfg.max_strikes)
    else (record, .Allowed)

/-- Step 2 of `check_and_update`: the `rate_limit_until` gate. -/
def cau_rl (cfg : SecurityConfig) (record : UserSecurityRecord) (now risk_score : Nat) :
    UserSecurityRecord × SecurityCheckResult :=
  match record.rate_limit_until with
  | some rate_limit_until =>
    if now < rate_limit_until then
      (record, .RateLimited (rate_limit_until - now) .SuspiciousHistory)
    else cau_core cfg { record with rate_limit_until := none } now risk_score
  | none => cau_core cfg record now risk_score

/-- Function `SecurityTracker::check_and_update` from the source, acting on the
per-identity record (`none` models an identity without a record, created
via `entry(..).or_default()`).  Returns the updated record together with
the `SecurityCheckResult`. -/
def check_and_update (cfg : SecurityConfig) (rec0 : Option UserSecurityRecord)
    (now risk_score : Nat) : UserSecurityRecord × SecurityCheckResult :=
  let record := rec0.getD (UserSecurityRecord.mkDefault now)
  match record.blocked_until with
  | some blocked_until =>
    if now < blocked_until then
      (record, .Blocked (blocked_until - now))
    else
      cau_rl cfg { record with blocked_until := none, strikes := 0 } now risk_score
  | none => cau_rl cfg record now risk_score

/-- The identity table of `SecurityTracker`. -/
def Records : Type := Nat → Option UserSecurityRecord

/-- Table-level `check_and_update`: the entry API inserts the updated
record for `user_id` in every branch. -/
def tracker_check_and_update (cfg : SecurityConfig) (m : Records) (user_id now risk_score : Nat) :
    Records × SecurityCheckResult :=
  let r := check_and_update cfg (m user_id) now risk_score
  (fun v => if v = user_id then some r.1 else m v, r.2)

/-- Function `SecurityTracker::block_user` from the source (creates the record on
an unknown identity via `entry(..).or_default()`). -/
def block_user (m : Records) (user_id now duration : Nat) : Records :=
  let r := (m user_id).getD (UserSecurityRecord.mkDefault now)
  fun v => if v = user_id then some { r with blocked_until := some (now + duration) }
           else m v

/-- Function `SecurityTracker::unblock_user` from the source: only an existing
record is touched (`get_mut`); unknown identities leave the table as-is. -/
def unblock_user (m : Records) (user_id : Nat) : Records :=
  match m user_id with
  | none => m
  | some r => fun v => if v = user_id then some { r with blocked_until := none, strikes := 0 }
                       else m v

/-- The `is_blocked` test used by `get_user_stats` and
`cleanup_old_records`: `blocked_until.map(|b| now < b).unwrap_or(false)`. -/
def is_blocked_record (r : UserSecurityRecord) (now : Nat) : Bool :=
  match r.blocked_until with
  | some b => decide (now < b)
  | none => false

/-- Function `SecurityTracker::get_user_stats` from the source: a pure read
(`records.get`), no record creation. -/
def get_user_stats (m : Records) (user_id now : Nat) : Option (Nat × Nat × Bool) :=
  (m user_id).map fun r => (r.strikes, r.total_violations, is_blocked_record r now)

/-- Function `SecurityTracker::cleanup_old_records` from the source: retain
exactly the records that are currently blocked or whose `last_strike`
lies within `strike_window * 2` of now. -/
def cleanup_old_records (cfg : SecurityConfig) (m : Records) (now : Nat) : Records :=
  fun v =>
    match m v with
    | none => none
    | some record =>
      if is_blocked_record record now
          || decide (now - record.last_strike < cfg.strike_window * 2) then some record
      else none

/-- The manual clearing of `rate_limit_until` performed between calls by
the source's own tests (`tracker_tests`, lines 657–674); used by the
strike-escalation scenario, which the spec states for "rate limit
manually cleared between calls". -/
def clear_rate_limit (m : Records) (user_id : Nat) : Records :=
  match m user_id with
  | none => m
  | some r => fun v => if v = user_id then some { r with rate_limit_until := none }
                       else m v

/-- Tables reachable from the empty table by tracker operations
(`check_and_update`, `block_user`, `unblock_user`, `cleanup_old_records`;
`get_user_stats` and `is_blocked` are pure reads). -/
inductive Reachable (cfg : SecurityConfig) : Records → Prop
  | empty : Reachable cfg (fun _ => none)
  | update (m : Records) (u now risk : Nat) :
      Reachable cfg m → Reachable cfg (tracker_check_and_update cfg m u now risk).1
  | block (m : Records) (u now d : Nat) :
      Reachable cfg m → Reachable cfg (block_user m u now d)
  | unblock (m : Records) (u : Nat) :
      Reachable cfg m → Reachable cfg (unblock_user m u)
  | cleanup (m : Records) (now : Nat) :
      Reachable cfg m → Reachable cfg (cleanup_old_records cfg m now)

/-! ### Computation lemmas for single tracker calls -/

theorem calc_rld_pos (tv : Nat) : 0 < calculate_rate_limit_duration tv := by
  unfold calculate_rate_limit_duration
  split_ifs <;> omega

/-- Lemma: `entry(..).or_default()` on a missing entry behaves like the call on
a fresh default record. -/
theorem noneToDefault (cfg : SecurityConfig) (now risk : Nat) :
    check_and_update cfg none now risk
      = check_and_update cfg (some (UserSecurityRecord.mkDefault now)) now risk := rfl

/-- A call on a record whose hard block is still in the future. -/
theorem cau_blocked (cfg : SecurityConfig) (s ls b tv lm k : Nat) (rl : Option Nat)
    (now risk : Nat) (hb : now < b) :
    check_and_update cfg (some ⟨s, ls, some b, tv, lm, k, rl⟩) now risk
      = (⟨s, ls, some b, tv, lm, k, rl⟩, .Blocked (b - now)) := by
  unfold check_and_update
  simp [hb]

/-- Lemma: `check_rate_limit` passes when the window is fresh and the count is
below the allowance. -/
theorem check_rate_limit_none (record : UserSecurityRecord) (now : Nat)
    (hw : now - record.last_message ≤ 60)
    (hk : record.messages_in_window < maxMessagesFor record.total_violations) :
    check_rate_limit record now = (record, none) := by
  unfold check_rate_limit
  rw [if_neg (show ¬ now - record.last_message > 60 by omega)]
  rw [if_neg (show ¬ record.messages_in_window ≥ maxMessagesFor record.total_violations
    by omega)]

/-- Lemma: `check_rate_limit` limits when the windowed count has reached the
allowance. -/
theorem check_rate_limit_limited (record : UserSecurityRecord) (now : Nat)
    (hw : now - record.last_message ≤ 60)
    (hk : record.messages_in_window ≥ maxMessagesFor record.total_violations) :
    check_rate_limit record now =
      ({ record with
         rate_limit_until := some (now + calculate_rate_limit_duration record.total_violations),
         messages_in_window := 0 },
       some (.RateLimited (calculate_rate_limit_duration record.total_violations)
         (if record.total_violations > 0 then .SuspiciousHistory else .TooManyMessages))) := by
  unfold check_rate_limit
  rw [if_neg (show ¬ now - record.last_message > 60 by omega)]
  rw [if_pos hk]

/-- A clean call (risk below threshold, unblocked, not rate limited,
window fresh, allowance not exhausted) is `Allowed` and only bumps the
message counter. -/
theorem cau_clean (cfg : SecurityConfig) (ls tv lm k now risk : Nat)
    (hrisk : risk < cfg.strike_threshold)
    (hw : now - lm ≤ 60)
    (hk : k < maxMessagesFor tv) :
    check_and_update cfg (some ⟨0, ls, none, tv, lm, k, none⟩) now risk
      = (⟨0, ls, none, tv, now, k + 1, none⟩, .Allowed) := by
  simp only [check_and_update, cau_rl, cau_core, Option.getD_some]
  rw [check_rate_limit_none ⟨0, ls, none, tv, lm, k, none⟩ now hw hk]
  simp only []
  rw [if_neg (show ¬ risk ≥ cfg.strike_threshold by omega)]
  split <;> rfl

/-- A call that hits the frequency allowance is rate limited. -/
theorem cau_freqlimit (cfg : SecurityConfig) (ls tv lm k now risk : Nat)
    (hw : now - lm ≤ 60)
    (hk : k ≥ maxMessagesFor tv) :
    check_and_update cfg (some ⟨0, ls, none, tv, lm, k, none⟩) now risk
      = (⟨0, ls, none, tv, lm, 0, some (now + calculate_rate_limit_duration tv)⟩,
         .RateLimited (calculate_rate_limit_duration tv)
           (if tv > 0 then .SuspiciousHistory else .TooManyMessages)) := by
  simp only [check_and_update, cau_rl, cau_core, Option.getD_some]
  rw [check_rate_limit_limited ⟨0, ls, none, tv, lm, k, none⟩ now hw hk]

/-- A call whose risk reaches the threshold on an unblocked, un-limited
record within the strike window: strike escalation, with the instant
rate-limit deterrent, blocking when the incremented count reaches
`max_strikes`. -/
theorem cau_strike (cfg : SecurityConfig) (s ls tv lm k now risk : Nat)
    (hth : cfg.strike_threshold ≤ risk)
    (hwin : now - ls ≤ cfg.strike_window)
    (hw : now - lm ≤ 60)
    (hk : k < maxMessagesFor tv) :
    check_and_update cfg (some ⟨s, ls, none, tv, lm, k, none⟩) now risk
      = (if s + 1 ≥ cfg.max_strikes then
          (⟨0, now, some (now + cfg.block_duration), tv + 1, now, k + 1,
            some (now + calculate_rate_limit_duration (tv + 1))⟩,
           .JustBlocked cfg.block_duration)
        else
          (⟨s + 1, now, none, tv + 1, now, k + 1,
            some (now + calculate_rate_limit_duration (tv + 1))⟩,
           .Warning (s + 1) cfg.max_strikes)) := by
  simp only [check_and_update, cau_rl, cau_core, Option.getD_some]
  rw [check_rate_limit_none ⟨s, ls, none, tv, lm, k, none⟩ now hw hk]
  simp only []
  rw [if_neg (show ¬ now - ls > cfg.strike_window by omega)]
  rw [if_pos (show risk ≥ cfg.strike_threshold by omega)]
  rw [if_pos (calc_rld_pos (tv + 1))]

/-- C10: reads never create records: `unblock_user` on an unknown
identity leaves the table unchanged and `get_user_stats` returns `none`;
only `check_and_update` and `block_user` insert records lazily. -/
theorem claim10_reads_create_no_record (m : Records) (u now : Nat) (h : m u = none) :
    unblock_user m u = m ∧
    get_user_stats m u now = none ∧
    (∀ cfg now2 risk, (tracker_check_and_update cfg m u now2 risk).1 u ≠ none) ∧
    (∀ now3 d, block_user m u now3 d u ≠ none) := by
  refine ⟨?_, ?_, ?_, ?_⟩
  · unfold unblock_user
    rw [h]
  · unfold get_user_stats
    rw [h]
    rfl
  · intro cfg now2 risk
    unfold tracker_check_and_update
    simp
  · intro now3 d
    unfold block_user
    simp

/-- Witness for C10 on the empty table and identity 5. -/
theorem claim10_witness :
    ((fun _ => none : Records) 5 = none) ∧
    (unblock_user (fun _ => none) 5 = (fun _ => none : Records) ∧
     get_user_stats (fun _ => none) 5 0 = none ∧
     (∀ cfg now2 risk, (tracker_check_and_update cfg (fun _ => none) 5 now2 risk).1 5 ≠ none) ∧
     (∀ now3 d, block_user (fun _ => none) 5 now3 d 5 ≠ none)) :=
  ⟨rfl, claim10_reads_create_no_record (fun _ => none) 5 0 rfl⟩

/-- C9 (amended): `cleanup_old_records` retains exactly the records that
are currently blocked or whose `last_strike` field — initialised to
record-creation time even when no strike ever occurred — lies within
twice `strike_window` of now; everything else is removed. -/
theorem claim9_eviction_characterization (cfg : SecurityConfig) (m : Records)
    (now u : Nat) (r : UserSecurityRecord) (h : m u = some r) :
    (cleanup_old_records cfg m now u = some r ↔
      (is_blocked_record r now = true ∨ now - r.last_strike < cfg.strike_window * 2)) ∧
    (cleanup_old_records cfg m now u = none ↔
      (is_blocked_record r now = false ∧ cfg.strike_window * 2 ≤ now - r.last_strike)) := by
  unfold cleanup_old_records
  rw [h]
  simp only []
  by_cases hc : (is_blocked_record r now
      || decide (now - r.last_strike < cfg.strike_window * 2)) = true
  · rw [if_pos hc]
    simp only [Bool.or_eq_true, decide_eq_true_eq] at hc
    constructor
    · exact ⟨fun _ => hc, fun _ => rfl⟩
    · constructor
      · intro hx
        exact absurd hx (by simp)
      · rintro ⟨hb, hge⟩
        rcases hc with hc | hc
        · rw [hc] at hb
          exact absurd hb (by simp)
        · omega
  · rw [if_neg hc]
    simp only [Bool.or_eq_true, decide_eq_true_eq, not_or, Bool.not_eq_true] at hc
    obtain ⟨hb, hlt⟩ := hc
    constructor
    · constructor
      · intro hx
        exact absurd hx (by simp)
      · intro hor
        rcases hor with h1 | h1
        · rw [h1] at hb
          exact absurd hb (by simp)
        · omega
    · exact ⟨fun _ => ⟨hb, by omega⟩, fun _ => rfl⟩

/-- C9 counterexample: one clean call creates a record with zero strikes
and no block; `cleanup_old_records` at that same instant *keeps* it
(`last_strike` was just initialised to the creation time), although the
claim says a never-struck, unblocked record is removed. -/
theorem claim9_counterexample :
    (tracker_check_and_update SecurityConfig.default (fun _ => none) 1 0 0).1 1
        = some ⟨0, 0, none, 0, 0, 1, none⟩ ∧
    is_blocked_record ⟨0, 0, none, 0, 0, 1, none⟩ 0 = false ∧
    (⟨0, 0, none, 0, 0, 1, none⟩ : UserSecurityRecord).total_violations = 0 ∧
    (⟨0, 0, none, 0, 0, 1, none⟩ : UserSecurityRecord).strikes = 0 ∧
    cleanup_old_records SecurityConfig.default
      (tracker_check_and_update SecurityConfig.default (fun _ => none) 1 0 0).1 0 1
      = some ⟨0, 0, none, 0, 0, 1, none⟩ := by
  decide

/-- Witness for C9 (amended) on a stale never-struck record, evicted
once twice the strike window has elapsed. -/
theorem claim9_witness :
    ((fun v => if v = 1 then some (UserSecurityRecord.mkDefault 0) else none : Records) 1
        = some (UserSecurityRecord.mkDefault 0)) ∧
    ((cleanup_old_records SecurityConfig.default
        (fun v => if v = 1 then some (UserSecurityRecord.mkDefault 0) else none) 7200 1
        = some (UserSecurityRecord.mkDefault 0) ↔
      (is_blocked_record (UserSecurityRecord.mkDefault 0) 7200 = true ∨
        7200 - (UserSecurityRecord.mkDefault 0).last_strike
          < SecurityConfig.default.strike_window * 2)) ∧
     (cleanup_old_records SecurityConfig.default
        (fun v => if v = 1 then some (UserSecurityRecord.mkDefault 0) else none) 7200 1
        = none ↔
      (is_blocked_record (UserSecurityRecord.mkDefault 0) 7200 = false ∧
        SecurityConfig.default.strike_window * 2
          ≤ 7200 - (UserSecurityRecord.mkDefault 0).last_strike))) :=
  ⟨rfl, claim9_eviction_characterization SecurityConfig.default _ 7200 1 _ rfl⟩



theorem cau_core_allowed (cfg : SecurityConfig) (rec : UserSecurityRecord) (now risk : Nat)
    (hrisk : risk < cfg.strike_threshold)
    (hfreq : (if now - rec.last_message > 60 then 0 else rec.messages_in_window)
      < maxMessagesFor rec.total_violations) :
    (cau_core cfg rec now risk).2 = .Allowed := by
  by_cases hw : now - rec.last_message > 60
  · rw [if_pos hw] at hfreq
    have hcr : check_rate_limit rec now = ({ rec with messages_in_window := 0 }, none) := by
      unfold check_rate_limit
      rw [if_pos hw]
      rw [if_neg (by simp; omega)]
    unfold cau_core
    rw [hcr]
    simp only []
    rw [if_neg (show ¬ risk ≥ cfg.strike_threshold by omega)]
  · rw [if_neg hw] at hfreq
    have hcr : check_rate_limit rec now = (rec, none) :=
      check_rate_limit_none rec now (by omega) hfreq
    unfold cau_core
    rw [hcr]
    simp only []
    rw [if_neg (show ¬ risk ≥ cfg.strike_threshold by omega)]

theorem cau_allowed_of (cfg : SecurityConfig) (rec : UserSecurityRecord) (now risk : Nat)
    (hb : rec.blocked_until = none)
    (hrl : ∀ x, rec.rate_limit_until = some x → x ≤ now)
    (hrisk : risk < cfg.strike_threshold)
    (hfreq : (if now - rec.last_message > 60 then 0 else rec.messages_in_window)
      < maxMessagesFor rec.total_violations) :
    (check_and_update cfg (some rec) now risk).2 = .Allowed := by
  simp only [check_and_update, Option.getD_some, hb]
  cases hx : rec.rate_limit_until with
  | none =>
    simp only [cau_rl, hx]
    exact cau_core_allowed cfg rec now risk hrisk hfreq
  | some x =>
    simp only [cau_rl, hx]
    rw [if_neg (show ¬ now < x by have := hrl x hx; omega)]
    exact cau_core_allowed cfg { rec with rate_limit_until := none } now risk hrisk hfreq



/-- C5 (amended): after `unblock_user` on a blocked identity, the next
clean-message call returns `Allowed` *provided* no `rate_limit_until` is
still in force at that instant and the frequency allowance is not
already exhausted (the source clears neither on unblock). -/
theorem claim5_unblock_then_clean (cfg : SecurityConfig) (m : Records)
    (u tu tc risk : Nat) (r : UserSecurityRecord)
    (hrec : m u = some r)
    (_hblocked : is_blocked_record r tu = true)
    (hrisk : risk < cfg.strike_threshold)
    (hrl : ∀ x, r.rate_limit_until = some x → x ≤ tc)
    (hfreq : (if tc - r.last_message > 60 then 0 else r.messages_in_window)
      < maxMessagesFor r.total_violations) :
    (tracker_check_and_update cfg (unblock_user m u) u tc risk).2 = .Allowed := by
  have hub : (unblock_user m u) u = some { r with blocked_until := none, strikes := 0 } := by
    unfold unblock_user
    rw [hrec]
    simp
  show (check_and_update cfg ((unblock_user m u) u) tc risk).2 = .Allowed
  rw [hub]
  exact cau_allowed_of cfg _ tc risk rfl hrl hrisk hfreq

def c5_blocked_state : Records :=
  (tracker_check_and_update SecurityConfig.default
    (clear_rate_limit (tracker_check_and_update SecurityConfig.default
      (clear_rate_limit (tracker_check_and_update SecurityConfig.default
        (fun _ => none) 1 0 50).1 1) 1 0 50).1 1) 1 0 50).1

/-- C5 counterexample: an identity blocked through three strikes still
carries the `rate_limit_until` set by the third strike; after
`unblock_user`, the next clean call returns `RateLimited`, not
`Allowed`. -/
theorem claim5_counterexample :
    c5_blocked_state 1 = some ⟨0, 0, some 300, 3, 0, 3, some 300⟩ ∧
    is_blocked_record ⟨0, 0, some 300, 3, 0, 3, some 300⟩ 1 = true ∧
    (tracker_check_and_update SecurityConfig.default
      (unblock_user c5_blocked_state 1) 1 1 0).2 = .RateLimited 299 .SuspiciousHistory := by
  decide

/-- Witness for C5 (amended): a manually blocked fresh identity (no rate
limit in force) is `Allowed` immediately after `unblock_user`. -/
theorem claim5_witness :
    (block_user (fun _ => none) 1 0 100 1
        = some ⟨0, 0, some 100, 0, 0, 0, none⟩) ∧
    is_blocked_record ⟨0, 0, some 100, 0, 0, 0, none⟩ 0 = true ∧
    0 < SecurityConfig.default.strike_threshold ∧
    (tracker_check_and_update SecurityConfig.default
      (unblock_user (block_user (fun _ => none) 1 0 100) 1) 1 0 0).2 = .Allowed :=
  ⟨by decide, by decide, by decide,
   claim5_unblock_then_clean SecurityConfig.default (block_user (fun _ => none) 1 0 100)
     1 0 0 0 ⟨0, 0, some 100, 0, 0, 0, none⟩ (by decide) (by decide)
     (by decide) (fun x hx => by simp at hx) (by decide)⟩



theorem check_rate_limit_reset_none (record : UserSecurityRecord) (now : Nat)
    (hw : now - record.last_message > 60)
    (hmax : 0 < maxMessagesFor record.total_violations) :
    check_rate_limit record now = ({ record with messages_in_window := 0 }, none) := by
  unfold check_rate_limit
  rw [if_pos hw]
  rw [if_neg (by simp; omega)]

theorem cau_strike2 (cfg : SecurityConfig) (s ls tv lm k now risk : Nat)
    (hth : cfg.strike_threshold ≤ risk)
    (hwin : now - ls ≤ cfg.strike_window)
    (hk : (if now - lm > 60 then 0 else k) < maxMessagesFor tv) :
    check_and_update cfg (some ⟨s, ls, none, tv, lm, k, none⟩) now risk
      = (if s + 1 ≥ cfg.max_strikes then
          (⟨0, now, some (now + cfg.block_duration), tv + 1, now,
            (if now - lm > 60 then 0 else k) + 1,
            some (now + calculate_rate_limit_duration (tv + 1))⟩,
           .JustBlocked cfg.block_duration)
        else
          (⟨s + 1, now, none, tv + 1, now, (if now - lm > 60 then 0 else k) + 1,
            some (now + calculate_rate_limit_duration (tv + 1))⟩,
           .Warning (s + 1) cfg.max_strikes)) := by
  by_cases hw : now - lm > 60
  · simp only [if_pos hw] at hk ⊢
    simp only [check_and_update, cau_rl, cau_core, Option.getD_some]
    rw [check_rate_limit_reset_none ⟨s, ls, none, tv, lm, k, none⟩ now hw
      (show 0 < maxMessagesFor tv by omega)]
    simp only []
    rw [if_neg (show ¬ now - ls > cfg.strike_window by omega)]
    rw [if_pos (show risk ≥ cfg.strike_threshold by omega)]
    rw [if_pos (calc_rld_pos (tv + 1))]
  · simp only [if_neg hw] at hk ⊢
    exact cau_strike cfg s ls tv lm k now risk hth hwin (by omega) hk

theorem tracker_eq (cfg : SecurityConfig) (m : Records) (u now risk : Nat)
    (rec : UserSecurityRecord) (res : SecurityCheckResult)
    (h : check_and_update cfg (m u) now risk = (rec, res)) :
    tracker_check_and_update cfg m u now risk
      = (fun v => if v = u then some rec else m v, res) := by
  unfold tracker_check_and_update
  rw [h]

theorem clear_eq (m : Records) (u : Nat) (rec : UserSecurityRecord)
    (h : m u = some rec) :
    clear_rate_limit m u
      = fun v => if v = u then some { rec with rate_limit_until := none } else m v := by
  unfold clear_rate_limit
  rw [h]

def c1_scenario (cfg : SecurityConfig) (u risk t1 t2 t3 t4 : Nat) :
    SecurityCheckResult × SecurityCheckResult × SecurityCheckResult × SecurityCheckResult :=
  let s1 := tracker_check_and_update cfg (fun _ => none) u t1 risk
  let s2 := tracker_check_and_update cfg (clear_rate_limit s1.1 u) u t2 risk
  let s3 := tracker_check_and_update cfg (clear_rate_limit s2.1 u) u t3 risk
  let s4 := tracker_check_and_update cfg s3.1 u t4 risk
  (s1.2, s2.2, s3.2, s4.2)

/-- C1: with `maxStrikes = 3` and the rate limit manually cleared
between calls, three above-threshold calls on a fresh identity yield
`Warning 1`, `Warning 2`, `JustBlocked blockDuration`, and a fourth call
before the block expires yields `Blocked` with positive remaining
time. -/
theorem claim1_strike_escalation (cfg : SecurityConfig) (u risk t1 t2 t3 t4 : Nat)
    (hmax : cfg.max_strikes = 3)
    (hrisk : cfg.strike_threshold ≤ risk)
    (h12 : t2 - t1 ≤ cfg.strike_window)
    (h23 : t3 - t2 ≤ cfg.strike_window)
    (h4 : t4 < t3 + cfg.block_duration) :
    c1_scenario cfg u risk t1 t2 t3 t4
      = (.Warning 1 3, .Warning 2 3, .JustBlocked cfg.block_duration,
         .Blocked (t3 + cfg.block_duration - t4)) ∧
    0 < t3 + cfg.block_duration - t4 := by
  -- first call, on the freshly created default record
  have hc1 : check_and_update cfg ((fun _ => none : Records) u) t1 risk
      = (⟨1, t1, none, 1, t1, 1, some (t1 + 60)⟩, .Warning 1 cfg.max_strikes) := by
    show check_and_update cfg none t1 risk = _
    rw [noneToDefault,
      show UserSecurityRecord.mkDefault t1 = ⟨0, t1, none, 0, t1, 0, none⟩ from rfl,
      cau_strike2 cfg 0 t1 0 t1 0 t1 risk hrisk (by omega)
        (by rw [Nat.sub_self]; norm_num [maxMessagesFor])]
    rw [if_neg (by omega)]
    norm_num [calculate_rate_limit_duration]
  have ht1 := tracker_eq cfg (fun _ => none) u t1 risk _ _ hc1
  have hm1 : (clear_rate_limit (tracker_check_and_update cfg (fun _ => none) u t1 risk).1 u) u
      = some ⟨1, t1, none, 1, t1, 1, none⟩ := by
    rw [ht1, clear_eq _ u ⟨1, t1, none, 1, t1, 1, some (t1 + 60)⟩ (by simp)]
    simp
  -- second call
  have hc2 : check_and_update cfg
      ((clear_rate_limit (tracker_check_and_update cfg (fun _ => none) u t1 risk).1 u) u)
      t2 risk
      = (⟨2, t2, none, 2, t2, (if t2 - t1 > 60 then 0 else 1) + 1, some (t2 + 120)⟩,
         .Warning 2 cfg.max_strikes) := by
    rw [hm1, cau_strike2 cfg 1 t1 1 t1 1 t2 risk hrisk h12
      (by rw [show maxMessagesFor 1 = 15 from rfl]; split_ifs <;> omega)]
    rw [if_neg (by omega)]
    norm_num [calculate_rate_limit_duration]
  have ht2 := tracker_eq cfg _ u t2 risk _ _ hc2
  have hm2 : (clear_rate_limit (tracker_check_and_update cfg
      (clear_rate_limit (tracker_check_and_update cfg (fun _ => none) u t1 risk).1 u)
      u t2 risk).1 u) u
      = some ⟨2, t2, none, 2, t2, (if t2 - t1 > 60 then 0 else 1) + 1, none⟩ := by
    rw [ht2, clear_eq _ u
      ⟨2, t2, none, 2, t2, (if t2 - t1 > 60 then 0 else 1) + 1, some (t2 + 120)⟩ (by simp)]
    simp
  -- third call
  have hc3 : check_and_update cfg
      ((clear_rate_limit (tracker_check_and_update cfg
        (clear_rate_limit (tracker_check_and_update cfg (fun _ => none) u t1 risk).1 u)
        u t2 risk).1 u) u) t3 risk
      = (⟨0, t3, some (t3 + cfg.block_duration), 3, t3,
          (if t3 - t2 > 60 then 0 else (if t2 - t1 > 60 then 0 else 1) + 1) + 1,
          some (t3 + 300)⟩,
         .JustBlocked cfg.block_duration) := by
    rw [hm2, cau_strike2 cfg 2 t2 2 t2 ((if t2 - t1 > 60 then 0 else 1) + 1) t3 risk hrisk h23
      (by rw [show maxMessagesFor 2 = 15 from rfl]; split_ifs <;> omega)]
    rw [if_pos (by omega)]
    norm_num [calculate_rate_limit_duration]
  have ht3 := tracker_eq cfg _ u t3 risk _ _ hc3
  have hm3 : (tracker_check_and_update cfg
      (clear_rate_limit (tracker_check_and_update cfg
        (clear_rate_limit (tracker_check_and_update cfg (fun _ => none) u t1 risk).1 u)
        u t2 risk).1 u) u t3 risk).1 u
      = some ⟨0, t3, some (t3 + cfg.block_duration), 3, t3,
          (if t3 - t2 > 60 then 0 else (if t2 - t1 > 60 then 0 else 1) + 1) + 1,
          some (t3 + 300)⟩ := by
    rw [ht3]
    simp
  -- fourth call, still blocked
  have hc4 : check_and_update cfg
      ((tracker_check_and_update cfg
        (clear_rate_limit (tracker_check_and_update cfg
          (clear_rate_limit (tracker_check_and_update cfg (fun _ => none) u t1 risk).1 u)
          u t2 risk).1 u) u t3 risk).1 u) t4 risk
      = (⟨0, t3, some (t3 + cfg.block_duration), 3, t3,
          (if t3 - t2 > 60 then 0 else (if t2 - t1 > 60 then 0 else 1) + 1) + 1,
          some (t3 + 300)⟩,
         .Blocked (t3 + cfg.block_duration - t4)) := by
    rw [hm3]
    exact cau_blocked cfg 0 t3 (t3 + cfg.block_duration) 3 t3
      ((if t3 - t2 > 60 then 0 else (if t2 - t1 > 60 then 0 else 1) + 1) + 1)
      (some (t3 + 300)) t4 risk h4
  have ht4 := tracker_eq cfg _ u t4 risk _ _ hc4
  refine ⟨?_, by omega⟩
  unfold c1_scenario
  simp only []
  rw [ht4, ht3, ht2, ht1]
  simp [hmax]



/-- A sequence of tracker calls for one identity at the given instants. -/
def run_calls (cfg : SecurityConfig) (m : Records) (u risk : Nat) :
    List Nat → Records × List SecurityCheckResult
  | [] => (m, [])
  | t :: ts =>
    let s := tracker_check_and_update cfg m u t risk
    let rest := run_calls cfg s.1 u risk ts
    (rest.1, s.2 :: rest.2)

theorem chainGapOfSorted :
    ∀ (l : List Nat) (x bound : Nat), List.Chain' (· ≤ ·) (x :: l) →
      (∀ t ∈ l, t ≤ bound) → bound ≤ x + 60 →
      List.Chain (fun a b => b - a ≤ 60) x l := by
  intro l
  induction l with
  | nil => intro x bound _ _ _; exact List.Chain.nil
  | cons t l ih =>
    intro x bound hs hb hbd
    rw [List.chain'_cons] at hs
    refine List.Chain.cons ?_ (ih t bound hs.2 (fun z hz => hb z (by simp [hz])) ?_)
    · have := hb t (by simp)
      omega
    · omega

theorem run_clean (cfg : SecurityConfig) (u risk : Nat) (hth : risk < cfg.strike_threshold) :
    ∀ (ts : List Nat) (m : Records) (k lm ls : Nat),
      m u = some ⟨0, ls, none, 0, lm, k, none⟩ →
      k + ts.length = 21 → k ≤ 20 →
      List.Chain (fun a b => b - a ≤ 60) lm ts →
      (run_calls cfg m u risk ts).2
        = List.replicate (20 - k) .Allowed ++ [.RateLimited 30 .TooManyMessages] := by
  intro ts
  induction ts with
  | nil =>
    intro m k lm ls _ hlen hk _
    simp at hlen
    omega
  | cons t ts ih =>
    intro m k lm ls hm hlen hk hch
    rw [List.chain_cons] at hch
    by_cases hk20 : k = 20
    · subst hk20
      have hts : ts = [] := by
        have := hlen
        simp at this
        exact List.eq_nil_of_length_eq_zero (by omega)
      subst hts
      have hc : check_and_update cfg (m u) t risk
          = (⟨0, ls, none, 0, lm, 0, some (t + 30)⟩,
             .RateLimited 30 .TooManyMessages) := by
        rw [hm]
        have := cau_freqlimit cfg ls 0 lm 20 t risk (by omega) (by
          rw [show maxMessagesFor 0 = 20 from rfl])
        rw [this]
        norm_num [calculate_rate_limit_duration]
      unfold run_calls
      rw [tracker_eq cfg m u t risk _ _ hc]
      simp [run_calls]
    · have hklt : k < 20 := by omega
      have hc : check_and_update cfg (m u) t risk
          = (⟨0, ls, none, 0, t, k + 1, none⟩, .Allowed) := by
        rw [hm]
        exact cau_clean cfg ls 0 lm k t risk hth hch.1
          (by rw [show maxMessagesFor 0 = 20 from rfl]; omega)
      unfold run_calls
      rw [tracker_eq cfg m u t risk _ _ hc]
      simp only []
      rw [ih _ (k + 1) t ls (by simp) (by simp at hlen ⊢; omega) (by omega) hch.2]
      rw [show 20 - k = (20 - (k + 1)) + 1 by omega, List.replicate_succ]
      simp

/-- C2: a fresh identity sending only below-threshold messages gets 20
consecutive `Allowed` results within a 60-second window, and the 21st
call returns `RateLimited` for 30 seconds with reason
`TooManyMessages` (the allowance bands live in `maxMessagesFor`, band 0
giving 20 messages per 60 seconds). -/
theorem claim2_frequency_limit (cfg : SecurityConfig) (u risk t0 : Nat) (rest : List Nat)
    (hth : risk < cfg.strike_threshold)
    (hlen : rest.length = 20)
    (hsorted : List.Chain' (· ≤ ·) (t0 :: rest))
    (hspan : ∀ t ∈ rest, t ≤ t0 + 60) :
    (run_calls cfg (fun _ => none) u risk (t0 :: rest)).2
      = List.replicate 20 .Allowed ++ [.RateLimited 30 .TooManyMessages] := by
  have hc1 : check_and_update cfg ((fun _ => none : Records) u) t0 risk
      = (⟨0, t0, none, 0, t0, 1, none⟩, .Allowed) := by
    show check_and_update cfg none t0 risk = _
    rw [noneToDefault,
      show UserSecurityRecord.mkDefault t0 = ⟨0, t0, none, 0, t0, 0, none⟩ from rfl]
    exact cau_clean cfg t0 0 t0 0 t0 risk hth (by omega)
      (by rw [show maxMessagesFor 0 = 20 from rfl]; omega)
  unfold run_calls
  rw [tracker_eq cfg _ u t0 risk _ _ hc1]
  simp only []
  rw [run_clean cfg u risk hth rest _ 1 t0 t0 (by simp) (by omega) (by omega)
    (chainGapOfSorted rest t0 (t0 + 60) hsorted hspan (by omega))]
  rw [show (20 : Nat) - 1 = 19 from rfl]
  rw [show (20 : Nat) = 19 + 1 from rfl, List.replicate_succ]
  simp



theorem check_rate_limit_strikes (record : UserSecurityRecord) (now : Nat) :
    (check_rate_limit record now).1.strikes = record.strikes := by
  simp only [check_rate_limit]
  split_ifs <;> rfl

theorem cau_core_strikes_lt (cfg : SecurityConfig) (hmax : 1 ≤ cfg.max_strikes)
    (record : UserSecurityRecord) (now risk : Nat)
    (h : record.strikes < cfg.max_strikes) :
    (cau_core cfg record now risk).1.strikes < cfg.max_strikes := by
  unfold cau_core
  rcases hcr : check_rate_limit record now with ⟨r1, res⟩
  have hr1 : r1.strikes = record.strikes := by
    have := check_rate_limit_strikes record now
    rw [hcr] at this
    exact this
  cases res with
  | some result => simpa [hr1] using h
  | none =>
    simp only []
    split_ifs with hwin hrisk hblock hrisk2 hblock2 <;> simp_all <;> omega

theorem cau_rl_strikes_lt (cfg : SecurityConfig) (hmax : 1 ≤ cfg.max_strikes)
    (record : UserSecurityRecord) (now risk : Nat)
    (h : record.strikes < cfg.max_strikes) :
    (cau_rl cfg record now risk).1.strikes < cfg.max_strikes := by
  unfold cau_rl
  cases hx : record.rate_limit_until with
  | some x =>
    simp only [hx]
    split_ifs with hlt
    · exact h
    · exact cau_core_strikes_lt cfg hmax _ now risk (by simpa using h)
  | none =>
    simp only [hx]
    exact cau_core_strikes_lt cfg hmax record now risk h

theorem cau_strikes_lt (cfg : SecurityConfig) (hmax : 1 ≤ cfg.max_strikes)
    (rec0 : Option UserSecurityRecord) (now risk : Nat)
    (h0 : ∀ r, rec0 = some r → r.strikes < cfg.max_strikes) :
    (check_and_update cfg rec0 now risk).1.strikes < cfg.max_strikes := by
  have hrec : (rec0.getD (UserSecurityRecord.mkDefault now)).strikes < cfg.max_strikes := by
    cases rec0 with
    | none => simpa [UserSecurityRecord.mkDefault] using hmax
    | some r => simpa using h0 r rfl
  unfold check_and_update
  cases hb : (rec0.getD (UserSecurityRecord.mkDefault now)).blocked_until with
  | some b =>
    simp only [hb]
    split_ifs with hlt
    · exact hrec
    · exact cau_rl_strikes_lt cfg hmax _ now risk (by simpa using hmax)
  | none =>
    simp only [hb]
    exact cau_rl_strikes_lt cfg hmax _ now risk hrec



theorem reachable_strikes_lt (cfg : SecurityConfig) (hmax : 1 ≤ cfg.max_strikes) :
    ∀ m : Records, Reachable cfg m → ∀ u r, m u = some r → r.strikes < cfg.max_strikes := by
  intro m hm
  induction hm with
  | empty =>
    intro u r h
    exact absurd h (by simp)
  | update m0 u0 now risk hm0 ih =>
    intro u r h
    unfold tracker_check_and_update at h
    simp only [] at h
    by_cases hu : u = u0
    · rw [if_pos hu] at h
      rw [← Option.some_inj.mp h]
      exact cau_strikes_lt cfg hmax (m0 u0) now risk (fun r0 hr0 => ih u0 r0 hr0)
    · rw [if_neg hu] at h
      exact ih u r h
  | block m0 u0 now d hm0 ih =>
    intro u r h
    unfold block_user at h
    by_cases hu : u = u0
    · rw [if_pos hu] at h
      have hlt : ((m0 u0).getD (UserSecurityRecord.mkDefault now)).strikes
          < cfg.max_strikes := by
        cases hx : m0 u0 with
        | none => simpa [UserSecurityRecord.mkDefault] using hmax
        | some r0 => simpa using ih u0 r0 hx
      have hr := Option.some_inj.mp h
      rw [← hr]
      simpa using hlt
    · rw [if_neg hu] at h
      exact ih u r h
  | unblock m0 u0 hm0 ih =>
    intro u r h
    unfold unblock_user at h
    cases hx : m0 u0 with
    | none =>
      rw [hx] at h
      exact ih u r h
    | some r0 =>
      rw [hx] at h
      simp only [] at h
      by_cases hu : u = u0
      · rw [if_pos hu] at h
        have hr := Option.some_inj.mp h
        rw [← hr]
        simpa using hmax
      · rw [if_neg hu] at h
        exact ih u r h
  | cleanup m0 now hm0 ih =>
    intro u r h
    unfold cleanup_old_records at h
    cases hx : m0 u with
    | none => rw [hx] at h; exact absurd h (by simp)
    | some r0 =>
      rw [hx] at h
      simp only [] at h
      split_ifs at h
      rw [← Option.some_inj.mp h]
      exact ih u r0 hx



theorem check_rate_limit_shape (record : UserSecurityRecord) (now : Nat) :
    (check_rate_limit record now).2 = none ∨
    ∃ a b, (check_rate_limit record now).2 = some (.RateLimited a b) := by
  simp only [check_rate_limit]
  split_ifs <;> simp

theorem cau_core_justBlocked (cfg : SecurityConfig) (record : UserSecurityRecord)
    (now risk : Nat) (r2 : UserSecurityRecord) (d : Nat)
    (h : cau_core cfg record now risk = (r2, .JustBlocked d)) :
    r2.blocked_until = some (now + cfg.block_duration) ∧ r2.strikes = 0 ∧
    d = cfg.block_duration := by
  unfold cau_core at h
  rcases hcr : check_rate_limit record now with ⟨r1, res⟩
  rw [hcr] at h
  cases res with
  | some result =>
    have hsh := check_rate_limit_shape record now
    rw [hcr] at hsh
    simp only [] at h hsh
    rcases hsh with h1 | ⟨a, b, h1⟩
    · exact absurd h1 (by simp)
    · rw [Option.some_inj.mp h1] at h
      simp [Prod.ext_iff] at h
  | none =>
    simp only [] at h
    split_ifs at h <;>
      (have h1 := congrArg Prod.fst h
       have h2 := congrArg Prod.snd h
       simp only [Prod.fst, Prod.snd] at h1 h2) <;>
      first
      | (injection h2 with hd
         rw [← h1]
         exact ⟨rfl, rfl, hd.symm⟩)
      | exact absurd h2 (by simp)

theorem cau_rl_justBlocked (cfg : SecurityConfig) (record : UserSecurityRecord)
    (now risk : Nat) (r2 : UserSecurityRecord) (d : Nat)
    (h : cau_rl cfg record now risk = (r2, .JustBlocked d)) :
    r2.blocked_until = some (now + cfg.block_duration) ∧ r2.strikes = 0 ∧
    d = cfg.block_duration := by
  unfold cau_rl at h
  cases hx : record.rate_limit_until with
  | none =>
    simp only [hx] at h
    exact cau_core_justBlocked _ _ _ _ _ _ h
  | some x =>
    simp only [hx] at h
    split_ifs at h with hlt
    · simp [Prod.ext_iff] at h
    · exact cau_core_justBlocked _ _ _ _ _ _ h

theorem justBlockedShape (cfg : SecurityConfig) (rec0 : Option UserSecurityRecord)
    (now risk : Nat) (r2 : UserSecurityRecord) (d : Nat)
    (h : check_and_update cfg rec0 now risk = (r2, .JustBlocked d)) :
    r2.blocked_until = some (now + cfg.block_duration) ∧ r2.strikes = 0 ∧
    d = cfg.block_duration := by
  unfold check_and_update at h
  cases hb : (rec0.getD (UserSecurityRecord.mkDefault now)).blocked_until with
  | none =>
    simp only [hb] at h
    exact cau_rl_justBlocked _ _ _ _ _ _ h
  | some b =>
    simp only [hb] at h
    split_ifs at h with hlt
    · simp [Prod.ext_iff] at h
    · exact cau_rl_justBlocked _ _ _ _ _ _ h

/-- C7: on every reachable table, an identity's record that is not
currently blocked has `strikes < max_strikes` (given `max_strikes ≥ 1`);
and any call returning `JustBlocked` has, in the same call, set
`blocked_until = now + block_duration` and reset `strikes` to 0. -/
theorem claim7_strike_invariant (cfg : SecurityConfig) (m : Records) (u now : Nat)
    (r : UserSecurityRecord)
    (hmax : 1 ≤ cfg.max_strikes)
    (hreach : Reachable cfg m)
    (hr : m u = some r)
    (_hnb : is_blocked_record r now = false) :
    r.strikes < cfg.max_strikes ∧
    (∀ rec0 now2 risk r2 d,
      check_and_update cfg rec0 now2 risk = (r2, .JustBlocked d) →
      r2.blocked_until = some (now2 + cfg.block_duration) ∧ r2.strikes = 0 ∧
      d = cfg.block_duration) :=
  ⟨reachable_strikes_lt cfg hmax m hreach u r hr,
   fun rec0 now2 risk r2 d h => justBlockedShape cfg rec0 now2 risk r2 d h⟩

/-- Witness for C7 after a single strike call on a fresh identity. -/
theorem claim7_witness :
    1 ≤ SecurityConfig.default.max_strikes ∧
    ((tracker_check_and_update SecurityConfig.default (fun _ => none) 7 0 50).1 7
        = some ⟨1, 0, none, 1, 0, 1, some 60⟩) ∧
    is_blocked_record ⟨1, 0, none, 1, 0, 1, some 60⟩ 0 = false ∧
    (⟨1, 0, none, 1, 0, 1, some 60⟩ : UserSecurityRecord).strikes
      < SecurityConfig.default.max_strikes :=
  ⟨by decide, by decide, by decide,
   (claim7_strike_invariant SecurityConfig.default
      (tracker_check_and_update SecurityConfig.default (fun _ => none) 7 0 50).1 7 0
      ⟨1, 0, none, 1, 0, 1, some 60⟩ (by decide)
      (Reachable.update (fun _ => none) 7 0 50 Reachable.empty)
      (by decide) (by decide)).1⟩

/-- Witness for C1 with the default config, three calls at instant 0 and
a fourth at instant 1. -/
theorem claim1_witness :
    SecurityConfig.default.max_strikes = 3 ∧
    SecurityConfig.default.strike_threshold ≤ 50 ∧
    (0 : Nat) - 0 ≤ SecurityConfig.default.strike_window ∧
    (1 : Nat) < 0 + SecurityConfig.default.block_duration ∧
    (c1_scenario SecurityConfig.default 1 50 0 0 0 1
      = (.Warning 1 3, .Warning 2 3, .JustBlocked SecurityConfig.default.block_duration,
         .Blocked (0 + SecurityConfig.default.block_duration - 1)) ∧
     0 < 0 + SecurityConfig.default.block_duration - 1) :=
  ⟨rfl, by decide, by decide, by decide,
   claim1_strike_escalation SecurityConfig.default 1 50 0 0 0 1 rfl (by decide) (by decide)
     (by decide) (by decide)⟩

theorem chainConstReplicate (n x : Nat) : List.Chain' (· ≤ ·) (x :: List.replicate n x) := by
  induction n with
  | zero => simp
  | succ n ih =>
    rw [List.replicate_succ]
    exact List.Chain'.cons le_rfl ih

/-- Witness for C2: 21 calls at instant 0 with the default config. -/
theorem claim2_witness :
    ((0 : Nat) < SecurityConfig.default.strike_threshold) ∧
    (List.replicate 20 0).length = 20 ∧
    List.Chain' (· ≤ ·) ((0 : Nat) :: List.replicate 20 0) ∧
    (∀ t ∈ List.replicate 20 (0 : Nat), t ≤ 0 + 60) ∧
    (run_calls SecurityConfig.default (fun _ => none) 1 0 (0 :: List.replicate 20 0)).2
      = List.replicate 20 .Allowed ++ [.RateLimited 30 .TooManyMessages] :=
  ⟨by decide, by decide, chainConstReplicate 20 0, by decide,
   claim2_frequency_limit SecurityConfig.default 1 0 0 (List.replicate 20 0) (by decide)
     (by decide) (chainConstReplicate 20 0) (by decide)⟩

end PersonaForge
